import Mathlib

/-!
Verification of the operation-dispatch and buffer-processing engine of the
image service.  The development shallowly embeds the two C++ dispatchers
(`image_service.cc`'s gRPC `ImageServiceImpl` and `image_processor.cc`'s
N-API `ImageProcessor`), the AVX byte-reordering fast path, and the metrics
aggregator.  Byte buffers are `List Nat` whose elements are byte values
(`< 256` where a claim needs it); machine floating point (`double`) is
modelled by exact rationals `ℚ`.

The file is organized as: all definitions first, then all theorems.
-/

set_option autoImplicit false

namespace ImageServiceImpl

/-- The grayscale loop of `image_service.cc` lines 41-46: iterate `i` in steps
of 3; whenever `i + 2 < size` replace the 3-byte group at `i` by three copies
of the integer mean `(b[i] + b[i+1] + b[i+2]) / 3` (C `int` arithmetic, no
overflow: the sum is at most 765).  The step-3 loop with the `i + 2 < size`
guard processes exactly the complete leading 3-byte groups and leaves a
trailing remainder of fewer than 3 bytes unchanged, which is what this
structural recursion does. -/
def grayscaleLoop : List Nat → List Nat
  | b0 :: b1 :: b2 :: rest =>
      let gray := (b0 + b1 + b2) / 3
      gray :: gray :: gray :: grayscaleLoop rest
  | rest => rest

/-- The operation strings recognized by the gRPC dispatcher
(`image_service.cc` lines 36-49). -/
def knownOps : List String := ["invert", "grayscale", "noop"]

/-- `image_service.cc` lines 33-54: `output = input`; "invert" maps every
byte to `255 - b` (no underflow for byte values); "grayscale" runs the
3-byte-group loop; "noop" does nothing; any other operation only logs and
returns the (unmodified) copy of the input. -/
def processImageData (input : List Nat) (operation : String) : List Nat :=
  if operation = "invert" then input.map (fun b => 255 - b)
  else if operation = "grayscale" then grayscaleLoop input
  else if operation = "noop" then input
  else input

end ImageServiceImpl

/-- The C10 claim's statement of the grayscale transform, written from the
claim's words rather than from the loop: each of the `len / 3` complete
3-byte groups is replaced by three copies of the integer floor of the mean of
its three bytes, and the trailing `len mod 3` bytes are returned unchanged. -/
def grayscaleClaimFn (b : List Nat) : List Nat :=
  (List.flatten ((List.range (b.length / 3)).map (fun g =>
    let m := (b.getD (3 * g) 0 + b.getD (3 * g + 1) 0 + b.getD (3 * g + 2) 0) / 3
    [m, m, m]))) ++ b.drop (3 * (b.length / 3))

namespace ImageProcessor

/-- Model of `cv::Mat` as used by the N-API engine: geometry plus the raw
byte contents (row-major, interleaved channels).  For the 8-bit matrices the
engine creates, `data.length = rows * cols * channels`. -/
structure Mat where
  rows : Nat
  cols : Nat
  channels : Nat
  data : List Nat

/-- `image_processor.cc` lines 153-157 (`bufferToMat`): allocate a
`height × width × channels` matrix and `memcpy` `buffer.size()` bytes into
it.  There is no size check: when the buffer is shorter than
`width*height*channels` the matrix keeps indeterminate (uninitialized) bytes
after the copied prefix — modelled by the explicit `uninit` fill; when the
buffer is longer, the `memcpy` writes past the allocation and the matrix
region holds the first `width*height*channels` bytes. -/
def bufferToMat (uninit : List Nat) (buffer : List Nat) (width height channels : Nat) : Mat :=
  { rows := height, cols := width, channels := channels,
    data := (buffer ++ uninit).take (width * height * channels) }

/-- `image_processor.cc` lines 159-163 (`matToBuffer`): allocate
`mat.total() * mat.channels()` bytes and `memcpy` that many bytes out of the
matrix data (`mat.total() = rows * cols`). -/
def matToBuffer (mat : Mat) : List Nat :=
  mat.data.take (mat.rows * mat.cols * mat.channels)

/-- Modelled from the spec: `cv::bitwise_not` (the "invert" handler, line
123) is supplied by the external image library; it is the byte-wise
complement `x ↦ 255 - x` on the same geometry (spec §8 scenario 1: "invert"
maps zero bytes to bytes of value 255). -/
def bitwise_not (m : Mat) : Mat :=
  { m with data := m.data.map (fun x => 255 - x) }

/-- The per-pixel kernel of `COLOR_BGR2GRAY`: each complete interleaved
`(B, G, R)` byte triple becomes one luma byte
`(1868*B + 9617*G + 4899*R + 8192) / 2^14` (OpenCV's fixed-point form of
`Y = 0.299 R + 0.587 G + 0.114 B`). -/
def lumaGroups : List Nat → List Nat
  | b :: g :: r :: rest =>
      ((1868 * b + 9617 * g + 4899 * r + 8192) / 16384) :: lumaGroups rest
  | _ => []

/-- Modelled from the spec: `cv::cvtColor(..., COLOR_BGR2GRAY)` (the
"grayscale" handler, line 125) is supplied by the external image library; it
produces a SINGLE-channel matrix of the same dimensions (spec §6: "channel
count 1 (grayscale) or 3 (color)"), one luma byte per pixel. -/
def cvtColor_BGR2GRAY (m : Mat) : Mat :=
  { rows := m.rows, cols := m.cols, channels := 1, data := lumaGroups m.data }

/-- The remaining handlers (`processHDR`, `applyToneMapping`,
`applyExposureFusion`, `applyComputerVision`, lines 166-226) run
floating-point OpenCV algorithms (gamma correction and normalization on
`CV_32F` data, Reinhard tone mapping, Mertens exposure fusion, Canny, ORB)
that the spec explicitly delegates to the external Image Algorithm Library;
their numeric content is outside the embedding and they enter the model as
parameters, each an arbitrary matrix-in → matrix-out function.  For
`exposure_fusion` the construction of the three exposures
`{m, m*0.5, m*2.0}` (saturating floating-point scaling) is folded into the
parameter as well. -/
structure ExtOps where
  processHDR : Mat → Mat
  applyToneMapping : Mat → String → Mat
  applyExposureFusion : Mat → Mat
  applyComputerVision : Mat → String → Mat

/-- The chunk loop of `vectorizedColorConversion` (`image_processor.cc`
lines 247-252): while at least 32 bytes remain (`i + 31 < size`), load 32
bytes and apply `_mm256_shuffle_epi8` with the mask
`_mm256_set_epi8(15,12,13,14, 11,8,9,10, 7,4,5,6, 3,0,1,2, <same 16 again>)`.
`_mm256_set_epi8` lists bytes 31..0, and `_mm256_shuffle_epi8` sends output
byte `i` of each 16-byte lane to input byte `mask[i]` of the same lane, so
per lane the output bytes 0..15 read input bytes
2,1,0,3, 6,5,4,7, 10,9,8,11, 14,13,12,15 — each aligned 4-byte group
`(a,b,c,d)` becomes `(c,b,a,d)`.  A final remainder shorter than 32 bytes is
left untouched: the loop exits and the function returns with no tail
handling. -/
def avxChunkLoop : List Nat → List Nat
  | a0 :: a1 :: a2 :: a3 :: a4 :: a5 :: a6 :: a7 ::
    a8 :: a9 :: a10 :: a11 :: a12 :: a13 :: a14 :: a15 ::
    a16 :: a17 :: a18 :: a19 :: a20 :: a21 :: a22 :: a23 ::
    a24 :: a25 :: a26 :: a27 :: a28 :: a29 :: a30 :: a31 :: rest =>
      a2 :: a1 :: a0 :: a3 :: a6 :: a5 :: a4 :: a7 ::
      a10 :: a9 :: a8 :: a11 :: a14 :: a13 :: a12 :: a15 ::
      a18 :: a17 :: a16 :: a19 :: a22 :: a21 :: a20 :: a23 ::
      a26 :: a25 :: a24 :: a27 :: a30 :: a29 :: a28 :: a31 :: avxChunkLoop rest
  | rest => rest

/-- `image_processor.cc` lines 238-253 (`vectorizedColorConversion`): return
the data unchanged when AVX is unsupported (line 239), otherwise run the
32-byte chunk loop over it. -/
def vectorizedColorConversion (avx_supported : Bool) (data : List Nat) : List Nat :=
  if avx_supported then avxChunkLoop data else data

/-- `image_processor.cc` lines 255-259 (`avxImageProcessing`): apply the
vectorized conversion to the raw bytes when the image has 3 channels. -/
def avxImageProcessing (avx_supported : Bool) (m : Mat) : Mat :=
  if m.channels = 3 then
    { m with data := vectorizedColorConversion avx_supported m.data }
  else m

/-- `image_processor.cc` lines 229-236 (`applySIMDOptimization`): when AVX is
unsupported, log and return with the image unchanged (the scalar "fallback"
performs no transform at all); otherwise run `avxImageProcessing`. -/
def applySIMDOptimization (avx_supported : Bool) (m : Mat) : Mat :=
  if avx_supported then avxImageProcessing avx_supported m else m

/-- The operation strings recognized by the N-API dispatcher
(`image_processor.cc` lines 122-143). -/
def knownOps : List String :=
  ["invert", "grayscale", "hdr", "tone_mapping", "exposure_fusion",
   "edge_detection", "feature_detection", "simd_optimize", "noop"]

/-- The `if/else` chain of `processImageData` (lines 122-147) selecting
`resultMat` from `inputMat`.  The `simd_optimize` branch clones the input and
mutates the clone in place; `noop` aliases the input matrix; an unknown
operation is only logged and also aliases the input matrix. -/
def selectResultMat (avx : Bool) (ext : ExtOps) (inputMat : Mat) (operation : String) : Mat :=
  if operation = "invert" then bitwise_not inputMat
  else if operation = "grayscale" then cvtColor_BGR2GRAY inputMat
  else if operation = "hdr" then ext.processHDR inputMat
  else if operation = "tone_mapping" then ext.applyToneMapping (ext.processHDR inputMat) "reinhard"
  else if operation = "exposure_fusion" then ext.applyExposureFusion inputMat
  else if operation = "edge_detection" then ext.applyComputerVision inputMat "canny"
  else if operation = "feature_detection" then ext.applyComputerVision inputMat "orb_features"
  else if operation = "simd_optimize" then applySIMDOptimization avx inputMat
  else if operation = "noop" then inputMat
  else inputMat

/-- `image_processor.cc` lines 114-150 (`processImageData`): geometry is
hard-coded to width = height = 256, channels = 3 (lines 115-117); the buffer
is bridged to a matrix with NO size validation (see `bufferToMat`), the
selected handler produces `resultMat`, and the result matrix is converted
back to bytes. -/
def processImageData (avx : Bool) (ext : ExtOps) (uninit : List Nat)
    (input : List Nat) (operation : String) : List Nat :=
  matToBuffer (selectResultMat avx ext (bufferToMat uninit input 256 256 3) operation)

/-- A concrete instantiation of the external algorithm-library parameters
(each handler returns its input matrix), used only to state closed
counterexamples about branches that never reach these handlers. -/
def trivialExtOps : ExtOps :=
  { processHDR := fun m => m,
    applyToneMapping := fun m _ => m,
    applyExposureFusion := fun m => m,
    applyComputerVision := fun m _ => m }

end ImageProcessor

/-- Lookup in an association-list model of a C++ map: the value at the first
entry carrying the key, or the default `d` when the key is absent (a fresh
`operator[]` slot is value-initialized: 0 for integers, 0.0 for doubles). -/
def mapGetD {α : Type} : List (String × α) → String → α → α
  | [], _, d => d
  | (k', v) :: rest, k, d => if k = k' then v else mapGetD rest k d

/-- Key-presence test for the association-list map model. -/
def mapHasKey {α : Type} : List (String × α) → String → Bool
  | [], _ => false
  | (k', _) :: rest, k => if k = k' then true else mapHasKey rest k

/-- `map[key]++`: `operator[]` value-initializes an absent entry to 0, and
the entry is then incremented — update the first matching entry in place, or
append `(k, 1)`. -/
def mapIncr : List (String × Nat) → String → List (String × Nat)
  | [], k => [(k, 1)]
  | (k', v) :: rest, k =>
      if k = k' then (k', v + 1) :: rest else (k', v) :: mapIncr rest k

/-- `map[key] = v`: `operator[]` inserts an absent entry, which is then
assigned — set the first matching entry in place, or append `(k, v)`. -/
def mapSetD {α : Type} : List (String × α) → String → α → List (String × α)
  | [], k, v => [(k, v)]
  | (k', v') :: rest, k, v =>
      if k = k' then (k', v) :: rest else (k', v') :: mapSetD rest k v

namespace ImageProcessor

/-- `image_processor.h` lines 53-61: the `Metrics` member struct of the
N-API engine.  `double` running averages are modelled by exact rationals;
the two `std::unordered_map`s are association lists. -/
structure Metrics where
  total_processed : Nat
  average_time : ℚ
  operation_count : List (String × Nat)
  operation_avg_time : List (String × ℚ)
  avx_used : Bool
  memory_allocated : Nat

/-- The zero-initialized `Metrics` of a freshly constructed processor. -/
def metricsInit : Metrics :=
  { total_processed := 0, average_time := 0, operation_count := [],
    operation_avg_time := [], avx_used := false, memory_allocated := 0 }

/-- `image_processor.cc` lines 72-85: the metrics update `ProcessImage`
performs after timing a request.  Steps, in source order: increment the
total count; recompute the global running average by the weighted formula
`(avg * (total - 1) + time) / total` (line 74, with `total` already
incremented); `operation_count[op]++` (line 77); recompute that operation's
running average the same way against the incremented per-operation count
(lines 78-80, `operator[]` creating a 0.0 slot for a new operation); set
`avx_used` when `operation == "simd_optimize" && avx_supported_`
(lines 83-85) — under the fixed 256×256×3 geometry that condition is exactly
"the AVX chunk loop ran on this request". -/
def updateMetrics (avx_supported : Bool) (m : Metrics) (operation : String)
    (processing_time : ℚ) : Metrics :=
  let total := m.total_processed + 1
  let avg := (m.average_time * ((total : ℚ) - 1) + processing_time) / (total : ℚ)
  let count := mapIncr m.operation_count operation
  let op_count := mapGetD count operation 0
  let op_avg := (mapGetD m.operation_avg_time operation 0 * ((op_count : ℚ) - 1)
      + processing_time) / (op_count : ℚ)
  { total_processed := total,
    average_time := avg,
    operation_count := count,
    operation_avg_time := mapSetD m.operation_avg_time operation op_avg,
    avx_used := m.avx_used || (operation == "simd_optimize" && avx_supported),
    memory_allocated := m.memory_allocated }

/-- A sequence of completions `(operation, elapsed)` recorded in order; the
serialization of whatever requests ran (each request performs exactly one
update). -/
def recordAll (avx_supported : Bool) (m : Metrics) : List (String × ℚ) → Metrics
  | [] => m
  | (op, t) :: rest => recordAll avx_supported (updateMetrics avx_supported m op t) rest

/-- One pass of the `GetMetrics` read loop (`image_processor.cc` lines
103-108): for each entry of `operation_count`, read
`operation_avg_time[op.first]` through non-const `operator[]`, which
value-initializes an absent key — so the read can, in principle, grow the
average map.  Returns the `(name, count, averageTime)` rows together with
the possibly-extended average map. -/
def readOps : List (String × Nat) → List (String × ℚ) →
    (List (String × Nat × ℚ) × List (String × ℚ))
  | [], avgMap => ([], avgMap)
  | (k, c) :: rest, avgMap =>
      let v := mapGetD avgMap k 0
      let avgMap' := if mapHasKey avgMap k then avgMap else avgMap ++ [(k, 0)]
      let r := readOps rest avgMap'
      ((k, c, v) :: r.1, r.2)

/-- The snapshot object assembled by `GetMetrics` (lines 94-109). -/
structure MetricsSnapshot where
  totalProcessed : Nat
  averageTime : ℚ
  avxSupported : Bool
  avxUsed : Bool
  memoryAllocated : Nat
  operations : List (String × Nat × ℚ)

/-- `image_processor.cc` lines 91-112 (`GetMetrics`): copy the scalar fields
into a fresh object, then iterate `operation_count` reading each operation's
average through `operator[]`.  The model returns the snapshot together with
the resulting metrics state, making any mutation by the read visible. -/
def GetMetrics (avx_supported : Bool) (m : Metrics) : MetricsSnapshot × Metrics :=
  let r := readOps m.operation_count m.operation_avg_time
  ({ totalProcessed := m.total_processed, averageTime := m.average_time,
     avxSupported := avx_supported, avxUsed := m.avx_used,
     memoryAllocated := m.memory_allocated, operations := r.1 },
   { m with operation_avg_time := r.2 })

/-- Every operation name present in `operation_count` also has an entry in
`operation_avg_time`.  `ProcessImage` writes both maps for every request, so
every reachable `Metrics` state satisfies this. -/
def KeysCovered (m : Metrics) : Prop :=
  ∀ p ∈ m.operation_count, mapHasKey m.operation_avg_time p.1 = true

end ImageProcessor

namespace ImageServiceImpl

/-- `image_service.cc` lines 22-27: the `ServiceMetrics` struct of the gRPC
service (global count and running average, connection gauge, per-operation
counts). -/
structure ServiceMetrics where
  total_processed : Nat
  average_processing_time : ℚ
  active_connections : Nat
  operation_counts : List (String × Nat)

/-- The zero-initialized `ServiceMetrics`. -/
def serviceMetricsInit : ServiceMetrics :=
  { total_processed := 0, average_processing_time := 0, active_connections := 0,
    operation_counts := [] }

/-- `image_service.cc` lines 77-82 (also 109-114): under the metrics mutex,
increment the total, recompute the global running average by the weighted
formula, and increment the operation's count. -/
def updateServiceMetrics (m : ServiceMetrics) (operation : String)
    (processing_time : ℚ) : ServiceMetrics :=
  let total := m.total_processed + 1
  let avg := (m.average_processing_time * ((total : ℚ) - 1) + processing_time)
      / (total : ℚ)
  { total_processed := total,
    average_processing_time := avg,
    active_connections := m.active_connections,
    operation_counts := mapIncr m.operation_counts operation }

/-- A sequence of completions recorded in order by the gRPC service. -/
def recordAllService (m : ServiceMetrics) : List (String × ℚ) → ServiceMetrics
  | [] => m
  | (op, t) :: rest => recordAllService (updateServiceMetrics m op t) rest

/-- The `MetricsResponse` assembled by the gRPC `GetMetrics`
(`image_service.cc` lines 124-136): the three scalar fields plus the
per-operation count map of the protobuf response. -/
structure MetricsResponse where
  total_processed : Nat
  average_processing_time : ℚ
  active_connections : Nat
  operation_counts : List (String × Nat)

/-- The response-map build of the `GetMetrics` loop (lines 131-133): for each
`(name, count)` pair of `metrics_.operation_counts`, insert
`(*response->mutable_operation_counts())[name] = count` into the initially
empty response map. -/
def buildResponseCounts (src : List (String × Nat)) : List (String × Nat) :=
  src.foldl (fun acc p => mapSetD acc p.1 p.2) []

/-- `image_service.cc` lines 124-136 (`GetMetrics`): under the metrics mutex,
copy `total_processed`, `average_processing_time` and `active_connections`
into the response, then copy the per-operation counts into the response map.
Every write in the method targets the response object (`response->set_...`
and the response's map); `metrics_` is only read, so the model returns the
state as-is alongside the response. -/
def GetMetrics (m : ServiceMetrics) : MetricsResponse × ServiceMetrics :=
  ({ total_processed := m.total_processed,
     average_processing_time := m.average_processing_time,
     active_connections := m.active_connections,
     operation_counts := buildResponseCounts m.operation_counts }, m)

end ImageServiceImpl

/-- Modelled from the spec: the scalar equivalent of the SIMD channel-shuffle
transform.  No scalar transform exists in the source; spec §4.3 asserts one
("always has a scalar equivalent that must produce bit-identical output")
whose "final remainder shorter than the chunk size is handled by the scalar
fallback applied only to that tail".  The 32-byte permutation acts on each
aligned 4-byte group `(a,b,c,d)` as `(c,b,a,d)` (see `avxChunkLoop`), so its
scalar form applies that group swap across the whole byte stream, including
the complete 4-byte groups of a tail shorter than 32 bytes. -/
def scalarTransform : List Nat → List Nat
  | b0 :: b1 :: b2 :: b3 :: rest => b2 :: b1 :: b0 :: b3 :: scalarTransform rest
  | rest => rest

/-- `grayscaleLoop` preserves the length of the buffer. -/
theorem grayscaleLoop_length (b : List Nat) :
    (ImageServiceImpl.grayscaleLoop b).length = b.length := by
  induction b using ImageServiceImpl.grayscaleLoop.induct with
  | case1 b0 b1 b2 rest ih => simp [ImageServiceImpl.grayscaleLoop, ih]
  | case2 rest h => cases rest with
    | nil => rfl
    | cons x xs => cases xs with
      | nil => rfl
      | cons y ys => cases ys with
        | nil => rfl
        | cons z zs => exact absurd rfl (h x y z zs)

/-- The gRPC dispatcher never changes the byte length of the buffer,
whatever the operation string is. -/
theorem processImageData_length (b : List Nat) (op : String) :
    (ImageServiceImpl.processImageData b op).length = b.length := by
  unfold ImageServiceImpl.processImageData
  split
  · simp
  · split
    · exact grayscaleLoop_length b
    · split <;> rfl

/-- The gRPC dispatcher returns the input buffer itself for any operation
string outside `knownOps`. -/
theorem processImageData_unknown (b : List Nat) (op : String)
    (h : op ∉ ImageServiceImpl.knownOps) : ImageServiceImpl.processImageData b op = b := by
  simp only [ImageServiceImpl.knownOps, List.mem_cons, List.not_mem_nil, or_false,
    not_or] at h
  obtain ⟨h1, h2, h3⟩ := h
  simp [ImageServiceImpl.processImageData, h1, h2, h3]

/-- On the "invert" operation the gRPC dispatcher is the byte-wise map
`x ↦ 255 - x`. -/
theorem processImageData_invert (b : List Nat) :
    ImageServiceImpl.processImageData b "invert" = b.map (fun x => 255 - x) := by
  simp [ImageServiceImpl.processImageData]

/-- On the "grayscale" operation the gRPC dispatcher runs the 3-byte-group
loop. -/
theorem processImageData_grayscale (b : List Nat) :
    ImageServiceImpl.processImageData b "grayscale" = ImageServiceImpl.grayscaleLoop b := by
  simp [ImageServiceImpl.processImageData]

/-- C9: the gRPC "invert" operation is an involution on byte buffers. -/
theorem grpc_invert_involutive (b : List Nat) (hb : ∀ x ∈ b, x < 256) :
    ImageServiceImpl.processImageData
      (ImageServiceImpl.processImageData b "invert") "invert" = b := by
  rw [processImageData_invert, processImageData_invert, List.map_map]
  induction b with
  | nil => rfl
  | cons x xs ih =>
      have hx : x < 256 := hb x (List.mem_cons_self x xs)
      have hxs : ∀ y ∈ xs, y < 256 := fun y hy => hb y (List.mem_cons_of_mem x hy)
      simp only [List.map_cons, Function.comp_apply, List.cons.injEq]
      exact ⟨by omega, ih hxs⟩

/-- C9 witness: double inversion restores a concrete byte buffer. -/
theorem grpc_invert_involutive_witness :
    ImageServiceImpl.processImageData
      (ImageServiceImpl.processImageData [0, 255, 7, 100] "invert") "invert" = [0, 255, 7, 100] :=
  grpc_invert_involutive [0, 255, 7, 100] (by decide)

/-- The grayscale loop coincides with the claim-level description (C10):
complete 3-byte groups become the floor of their mean, the tail is kept. -/
theorem grayscaleLoop_eq_claimFn (b : List Nat) :
    ImageServiceImpl.grayscaleLoop b = grayscaleClaimFn b := by
  induction b using ImageServiceImpl.grayscaleLoop.induct with
  | case1 b0 b1 b2 rest ih =>
      have hlen : (b0 :: b1 :: b2 :: rest).length / 3 = rest.length / 3 + 1 := by
        simp only [List.length_cons]; omega
      rw [ImageServiceImpl.grayscaleLoop, ih, grayscaleClaimFn, grayscaleClaimFn, hlen,
        List.range_succ_eq_map]
      simp only [List.map_cons, List.flatten_cons, List.map_map]
      have hdrop : 3 * (rest.length / 3 + 1) = 3 * (rest.length / 3) + 1 + 1 + 1 := by omega
      rw [hdrop, List.drop_succ_cons, List.drop_succ_cons, List.drop_succ_cons]
      simp only [List.cons_append, List.nil_append]
      congr 1
  | case2 rest h => cases rest with
    | nil => simp [ImageServiceImpl.grayscaleLoop, grayscaleClaimFn]
    | cons x xs => cases xs with
      | nil => simp [ImageServiceImpl.grayscaleLoop, grayscaleClaimFn]
      | cons y ys => cases ys with
        | nil => simp [ImageServiceImpl.grayscaleLoop, grayscaleClaimFn]
        | cons z zs => exact absurd rfl (h x y z zs)

/-- C10: on a buffer whose length need not be a multiple of 3, the gRPC
"grayscale" operation replaces exactly the complete 3-byte groups by the
integer floor of the mean of their three bytes and returns the trailing
`length mod 3` bytes unchanged. -/
theorem grpc_grayscale_tail (b : List Nat) :
    ImageServiceImpl.processImageData b "grayscale" = grayscaleClaimFn b := by
  rw [processImageData_grayscale, grayscaleLoop_eq_claimFn]

/-- Unknown operations leave `selectResultMat` at the input matrix. -/
theorem selectResultMat_unknown (avx : Bool) (ext : ImageProcessor.ExtOps)
    (m : ImageProcessor.Mat) (op : String) (h : op ∉ ImageProcessor.knownOps) :
    ImageProcessor.selectResultMat avx ext m op = m := by
  simp only [ImageProcessor.knownOps, List.mem_cons, List.not_mem_nil, or_false,
    not_or] at h
  obtain ⟨h1, h2, h3, h4, h5, h6, h7, h8, h9⟩ := h
  simp [ImageProcessor.selectResultMat, h1, h2, h3, h4, h5, h6, h7, h8, h9]

/-- The "noop" branch of the N-API dispatcher aliases the input matrix. -/
theorem selectResultMat_noop (avx : Bool) (ext : ImageProcessor.ExtOps)
    (m : ImageProcessor.Mat) :
    ImageProcessor.selectResultMat avx ext m "noop" = m := rfl

/-- The "grayscale" branch of the N-API dispatcher runs the BGR→GRAY
conversion. -/
theorem selectResultMat_grayscale (avx : Bool) (ext : ImageProcessor.ExtOps)
    (m : ImageProcessor.Mat) :
    ImageProcessor.selectResultMat avx ext m "grayscale" =
      ImageProcessor.cvtColor_BGR2GRAY m := rfl

/-- When the buffer has exactly the hard-coded geometry's byte count, the
bridged matrix holds exactly the buffer's bytes (no uninitialized fill). -/
theorem bufferToMat_data_of_length (uninit b : List Nat) (hb : b.length = 196608) :
    (ImageProcessor.bufferToMat uninit b 256 256 3).data = b := by
  simp only [ImageProcessor.bufferToMat]
  exact List.take_left' (by omega)

/-- Round trip: bridging a buffer of the hard-coded geometry's byte count to
a matrix and back returns the buffer itself. -/
theorem matToBuffer_bufferToMat (uninit b : List Nat) (hb : b.length = 196608) :
    ImageProcessor.matToBuffer (ImageProcessor.bufferToMat uninit b 256 256 3) = b := by
  show ((b ++ uninit).take (256 * 256 * 3)).take (256 * 256 * 3) = b
  rw [List.take_left' (show b.length = 256 * 256 * 3 by omega)]
  exact List.take_of_length_le (by omega)

/-- Unknown operations pass a geometry-sized buffer through the N-API
dispatcher unchanged. -/
theorem np_processImageData_unknown (avx : Bool) (ext : ImageProcessor.ExtOps)
    (uninit b : List Nat) (op : String) (hop : op ∉ ImageProcessor.knownOps)
    (hb : b.length = 196608) :
    ImageProcessor.processImageData avx ext uninit b op = b := by
  unfold ImageProcessor.processImageData
  rw [selectResultMat_unknown _ _ _ _ hop, matToBuffer_bufferToMat _ _ hb]

/-- C2 counterexample: on the N-API dispatcher an unknown operation does NOT
return every buffer unchanged — a 1-byte buffer comes back as the 196608-byte
contents of the hard-coded 256×256×3 matrix. -/
theorem np_unknown_op_not_identity :
    ImageProcessor.processImageData false ImageProcessor.trivialExtOps
      (List.replicate 196607 7) [0] "not_a_real_op" ≠ [0] := by
  have hval : ImageProcessor.processImageData false ImageProcessor.trivialExtOps
      (List.replicate 196607 7) [0] "not_a_real_op" = 0 :: List.replicate 196607 7 := by
    unfold ImageProcessor.processImageData
    rw [selectResultMat_unknown _ _ _ _ (by decide)]
    show ((([0] ++ List.replicate 196607 7 : List Nat)).take (256 * 256 * 3)).take
        (256 * 256 * 3) = 0 :: List.replicate 196607 7
    rw [List.cons_append, List.nil_append, List.take_take, Nat.min_self,
      List.take_of_length_le (by rw [List.length_cons, List.length_replicate])]
  rw [hval]
  intro h
  have hlen := congrArg List.length h
  rw [List.length_cons, List.length_replicate, List.length_cons, List.length_nil] at hlen
  omega

/-- C2 (amended): the gRPC dispatcher returns the buffer itself for every
unknown operation on every buffer; the N-API dispatcher does so only for
buffers whose length equals the hard-coded geometry's 256·256·3 = 196608
bytes (wrong-sized buffers are not validated and are not returned intact). -/
theorem unknown_op_passthrough :
    (∀ (b : List Nat) (op : String), op ∉ ImageServiceImpl.knownOps →
      ImageServiceImpl.processImageData b op = b) ∧
    (∀ (avx : Bool) (ext : ImageProcessor.ExtOps) (uninit b : List Nat) (op : String),
      op ∉ ImageProcessor.knownOps → b.length = 196608 →
      ImageProcessor.processImageData avx ext uninit b op = b) :=
  ⟨processImageData_unknown, np_processImageData_unknown⟩

/-- C2 witness: the passthrough at the concrete unknown operation
"not_a_real_op", on a 3-byte buffer (gRPC) and on a geometry-sized buffer
(N-API). -/
theorem unknown_op_passthrough_witness :
    ImageServiceImpl.processImageData [1, 2, 3] "not_a_real_op" = [1, 2, 3] ∧
    ImageProcessor.processImageData false ImageProcessor.trivialExtOps []
      (List.replicate 196608 5) "not_a_real_op" = List.replicate 196608 5 :=
  ⟨unknown_op_passthrough.1 [1, 2, 3] "not_a_real_op" (by decide),
   unknown_op_passthrough.2 false ImageProcessor.trivialExtOps [] (List.replicate 196608 5)
     "not_a_real_op" (by decide) (List.length_replicate 196608 5)⟩

/-- C3 (the code, evaluated at the failing input): the N-API dispatcher has
no size validation at all.  On a 10-byte buffer — whose byte length 10
disagrees with the hard-coded width×height×channels = 196608 — it does not
fail: `bufferToMat` blindly `memcpy`s, the selected handler runs, and a
196608-byte result is returned (the caller then records metrics for the
request as for any other). -/
theorem np_dispatch_no_size_check :
    (ImageProcessor.processImageData false ImageProcessor.trivialExtOps
      (List.replicate 196598 0) (List.replicate 10 0) "noop").length = 196608 := by
  unfold ImageProcessor.processImageData
  rw [selectResultMat_noop]
  show ((((List.replicate 10 0 ++ List.replicate 196598 0 : List Nat)).take
      (256 * 256 * 3)).take (256 * 256 * 3)).length = 196608
  rw [List.take_take, Nat.min_self,
    List.take_of_length_le
      (by rw [List.length_append, List.length_replicate, List.length_replicate])]
  rw [List.length_append, List.length_replicate, List.length_replicate]

/-- BGR→GRAY produces exactly one byte per complete 3-byte group. -/
theorem lumaGroups_length (l : List Nat) :
    (ImageProcessor.lumaGroups l).length = l.length / 3 := by
  induction l using ImageProcessor.lumaGroups.induct with
  | case1 b g r rest ih =>
      simp only [ImageProcessor.lumaGroups, List.length_cons, ih]
      omega
  | case2 rest h => cases rest with
    | nil => simp [ImageProcessor.lumaGroups]
    | cons x xs => cases xs with
      | nil => simp [ImageProcessor.lumaGroups]
      | cons y ys => cases ys with
        | nil => simp [ImageProcessor.lumaGroups]
        | cons z zs => exact absurd rfl (h x y z zs)

/-- The fixed-point luma of the uniform pixel (100,100,100) is 100, so an
all-100 interleaved buffer becomes an all-100 single-channel buffer. -/
theorem lumaGroups_replicate_100 (k : Nat) :
    ImageProcessor.lumaGroups (List.replicate (3 * k) 100) = List.replicate k 100 := by
  induction k with
  | zero => rfl
  | succ n ih =>
      have h3 : 3 * (n + 1) = 3 * n + 1 + 1 + 1 := by omega
      rw [h3, List.replicate_succ, List.replicate_succ, List.replicate_succ,
        List.replicate_succ]
      simp only [ImageProcessor.lumaGroups]
      rw [ih]

/-- An all-(100,100,100) buffer is a fixed point of the gRPC grayscale loop
(the mean of three equal bytes is that byte). -/
theorem grayscaleLoop_replicate_100 (k : Nat) :
    ImageServiceImpl.grayscaleLoop (List.replicate (3 * k) 100)
      = List.replicate (3 * k) 100 := by
  induction k with
  | zero => rfl
  | succ n ih =>
      have h3 : 3 * (n + 1) = 3 * n + 1 + 1 + 1 := by omega
      rw [h3, List.replicate_succ, List.replicate_succ, List.replicate_succ]
      simp only [ImageServiceImpl.grayscaleLoop]
      rw [ih]

/-- The gRPC "grayscale" returns an all-(100,100,100) buffer unchanged. -/
theorem grpc_grayscale_uniform (k : Nat) :
    ImageServiceImpl.processImageData (List.replicate (3 * k) 100) "grayscale"
      = List.replicate (3 * k) 100 := by
  rw [processImageData_grayscale, grayscaleLoop_replicate_100]

/-- The N-API "grayscale" on a geometry-sized buffer returns 65536 bytes
(one channel per pixel), not the input length. -/
theorem np_grayscale_length (avx : Bool) (ext : ImageProcessor.ExtOps)
    (uninit b : List Nat) (hb : b.length = 196608) :
    (ImageProcessor.processImageData avx ext uninit b "grayscale").length = 65536 := by
  unfold ImageProcessor.processImageData
  rw [selectResultMat_grayscale]
  show ((ImageProcessor.lumaGroups
      (ImageProcessor.bufferToMat uninit b 256 256 3).data).take (256 * 256 * 1)).length
    = 65536
  rw [bufferToMat_data_of_length uninit b hb,
    List.take_of_length_le (by rw [lumaGroups_length, hb]),
    lumaGroups_length, hb]

/-- The N-API "grayscale" on the all-(100,100,100) geometry-sized buffer
returns the all-100 single-channel buffer of 65536 bytes. -/
theorem np_grayscale_uniform (avx : Bool) (ext : ImageProcessor.ExtOps) (uninit : List Nat) :
    ImageProcessor.processImageData avx ext uninit (List.replicate 196608 100) "grayscale"
      = List.replicate 65536 100 := by
  unfold ImageProcessor.processImageData
  rw [selectResultMat_grayscale]
  show (ImageProcessor.lumaGroups
      (ImageProcessor.bufferToMat uninit (List.replicate 196608 100) 256 256 3).data).take
      (256 * 256 * 1) = List.replicate 65536 100
  rw [bufferToMat_data_of_length uninit _ (List.length_replicate 196608 100),
    show (196608 : Nat) = 3 * 65536 from by norm_num,
    lumaGroups_replicate_100,
    List.take_of_length_le (by rw [List.length_replicate])]

/-- C5 counterexample: a recognized operation that changes the byte length —
the N-API "grayscale" maps a 196608-byte buffer to 65536 bytes. -/
theorem np_grayscale_changes_length :
    (ImageProcessor.processImageData false ImageProcessor.trivialExtOps []
        (List.replicate 196608 100) "grayscale").length
      ≠ (List.replicate 196608 100).length := by
  rw [np_grayscale_length false ImageProcessor.trivialExtOps []
      (List.replicate 196608 100) (List.length_replicate 196608 100),
    List.length_replicate]
  omega

/-- C5 (amended): every gRPC operation (known or unknown) preserves byte
length; the N-API dispatcher does not — its "grayscale" maps any buffer of
the hard-coded geometry size 196608 to a 65536-byte single-channel buffer. -/
theorem dispatch_length_invariant :
    (∀ (b : List Nat) (op : String),
      (ImageServiceImpl.processImageData b op).length = b.length) ∧
    (∀ (avx : Bool) (ext : ImageProcessor.ExtOps) (uninit b : List Nat),
      b.length = 196608 →
      (ImageProcessor.processImageData avx ext uninit b "grayscale").length = 65536) :=
  ⟨processImageData_length, np_grayscale_length⟩

/-- C5 witness: length preservation for a concrete gRPC request and the
65536-byte N-API grayscale output for a concrete geometry-sized buffer. -/
theorem dispatch_length_invariant_witness :
    (ImageServiceImpl.processImageData [1, 2, 3, 4] "invert").length = 4 ∧
    (ImageProcessor.processImageData false ImageProcessor.trivialExtOps []
      (List.replicate 196608 100) "grayscale").length = 65536 :=
  ⟨dispatch_length_invariant.1 [1, 2, 3, 4] "invert",
   dispatch_length_invariant.2 false ImageProcessor.trivialExtOps []
     (List.replicate 196608 100) (List.length_replicate 196608 100)⟩

/-- C8 counterexample: on the N-API engine (the claim's cited line 125) the
"grayscale" output for the all-(100,100,100) buffer is NOT the three-channel
input buffer — it has one byte per pixel. -/
theorem np_grayscale_uniform_not_input :
    ImageProcessor.processImageData false ImageProcessor.trivialExtOps []
      (List.replicate 196608 100) "grayscale" ≠ List.replicate 196608 100 := by
  rw [np_grayscale_uniform]
  intro h
  have hlen := congrArg List.length h
  rw [List.length_replicate, List.length_replicate] at hlen
  omega

/-- C8 (amended): the gRPC "grayscale" returns an all-(100,100,100) buffer
unchanged (three-channel shape kept; the mean of equal channels is itself);
the N-API "grayscale" keeps every output byte at 100 but collapses the
buffer to a single channel (65536 bytes), so the three-channel shape is not
kept there. -/
theorem grayscale_uniform_pixels :
    (∀ k : Nat, ImageServiceImpl.processImageData (List.replicate (3 * k) 100) "grayscale"
      = List.replicate (3 * k) 100) ∧
    (∀ (avx : Bool) (ext : ImageProcessor.ExtOps) (uninit : List Nat),
      ImageProcessor.processImageData avx ext uninit (List.replicate 196608 100) "grayscale"
        = List.replicate 65536 100) :=
  ⟨grpc_grayscale_uniform, np_grayscale_uniform⟩
/-- On buffers whose length is a multiple of 32 the chunk loop coincides
with the scalar per-4-byte-group shuffle. -/
theorem avxChunkLoop_eq_scalar : ∀ b : List Nat, 32 ∣ b.length →
    ImageProcessor.avxChunkLoop b = scalarTransform b := by
  intro b
  induction b using ImageProcessor.avxChunkLoop.induct with
  | case1 a0 a1 a2 a3 a4 a5 a6 a7 a8 a9 a10 a11 a12 a13 a14 a15 a16 a17 a18 a19 a20 a21 a22 a23 a24 a25 a26 a27 a28 a29 a30 a31 rest ih =>
      intro hdvd
      simp only [List.length_cons] at hdvd
      have hrest : 32 ∣ rest.length := by omega
      simp only [ImageProcessor.avxChunkLoop, scalarTransform]
      rw [ih hrest]
  | case2 rest h =>
      intro hdvd
      rcases rest with _ | ⟨a0, rest⟩
      · rfl
      rcases rest with _ | ⟨a1, rest⟩
      · simp only [List.length_cons, List.length_nil] at hdvd
        omega
      rcases rest with _ | ⟨a2, rest⟩
      · simp only [List.length_cons, List.length_nil] at hdvd
        omega
      rcases rest with _ | ⟨a3, rest⟩
      · simp only [List.length_cons, List.length_nil] at hdvd
        omega
      rcases rest with _ | ⟨a4, rest⟩
      · simp only [List.length_cons, List.length_nil] at hdvd
        omega
      rcases rest with _ | ⟨a5, rest⟩
      · simp only [List.length_cons, List.length_nil] at hdvd
        omega
      rcases rest with _ | ⟨a6, rest⟩
      · simp only [List.length_cons, List.length_nil] at hdvd
        omega
      rcases rest with _ | ⟨a7, rest⟩
      · simp only [List.length_cons, List.length_nil] at hdvd
        omega
      rcases rest with _ | ⟨a8, rest⟩
      · simp only [List.length_cons, List.length_nil] at hdvd
        omega
      rcases rest with _ | ⟨a9, rest⟩
      · simp only [List.length_cons, List.length_nil] at hdvd
        omega
      rcases rest with _ | ⟨a10, rest⟩
      · simp only [List.length_cons, List.length_nil] at hdvd
        omega
      rcases rest with _ | ⟨a11, rest⟩
      · simp only [List.length_cons, List.length_nil] at hdvd
        omega
      rcases rest with _ | ⟨a12, rest⟩
      · simp only [List.length_cons, List.length_nil] at hdvd
        omega
      rcases rest with _ | ⟨a13, rest⟩
      · simp only [List.length_cons, List.length_nil] at hdvd
        omega
      rcases rest with _ | ⟨a14, rest⟩
      · simp only [List.length_cons, List.length_nil] at hdvd
        omega
      rcases rest with _ | ⟨a15, rest⟩
      · simp only [List.length_cons, List.length_nil] at hdvd
        omega
      rcases rest with _ | ⟨a16, rest⟩
      · simp only [List.length_cons, List.length_nil] at hdvd
        omega
      rcases rest with _ | ⟨a17, rest⟩
      · simp only [List.length_cons, List.length_nil] at hdvd
        omega
      rcases rest with _ | ⟨a18, rest⟩
      · simp only [List.length_cons, List.length_nil] at hdvd
        omega
      rcases rest with _ | ⟨a19, rest⟩
      · simp only [List.length_cons, List.length_nil] at hdvd
        omega
      rcases rest with _ | ⟨a20, rest⟩
      · simp only [List.length_cons, List.length_nil] at hdvd
        omega
      rcases rest with _ | ⟨a21, rest⟩
      · simp only [List.length_cons, List.length_nil] at hdvd
        omega
      rcases rest with _ | ⟨a22, rest⟩
      · simp only [List.length_cons, List.length_nil] at hdvd
        omega
      rcases rest with _ | ⟨a23, rest⟩
      · simp only [List.length_cons, List.length_nil] at hdvd
        omega
      rcases rest with _ | ⟨a24, rest⟩
      · simp only [List.length_cons, List.length_nil] at hdvd
        omega
      rcases rest with _ | ⟨a25, rest⟩
      · simp only [List.length_cons, List.length_nil] at hdvd
        omega
      rcases rest with _ | ⟨a26, rest⟩
      · simp only [List.length_cons, List.length_nil] at hdvd
        omega
      rcases rest with _ | ⟨a27, rest⟩
      · simp only [List.length_cons, List.length_nil] at hdvd
        omega
      rcases rest with _ | ⟨a28, rest⟩
      · simp only [List.length_cons, List.length_nil] at hdvd
        omega
      rcases rest with _ | ⟨a29, rest⟩
      · simp only [List.length_cons, List.length_nil] at hdvd
        omega
      rcases rest with _ | ⟨a30, rest⟩
      · simp only [List.length_cons, List.length_nil] at hdvd
        omega
      rcases rest with _ | ⟨a31, rest⟩
      · simp only [List.length_cons, List.length_nil] at hdvd
        omega
      exact absurd rfl (h a0 a1 a2 a3 a4 a5 a6 a7 a8 a9 a10 a11 a12 a13 a14 a15 a16 a17 a18 a19 a20 a21 a22 a23 a24 a25 a26 a27 a28 a29 a30 a31 rest)

/-- A buffer shorter than the 32-byte chunk is returned unchanged by the
chunk loop (the loop body never runs; there is no tail handling). -/
theorem avxChunkLoop_short : ∀ b : List Nat, b.length < 32 →
    ImageProcessor.avxChunkLoop b = b := by
  intro b
  induction b using ImageProcessor.avxChunkLoop.induct with
  | case1 a0 a1 a2 a3 a4 a5 a6 a7 a8 a9 a10 a11 a12 a13 a14 a15 a16 a17 a18 a19 a20 a21 a22 a23 a24 a25 a26 a27 a28 a29 a30 a31 rest ih =>
      intro hlt
      simp only [List.length_cons] at hlt
      omega
  | case2 rest h =>
      intro hlt
      rcases rest with _ | ⟨a0, rest⟩
      · rfl
      rcases rest with _ | ⟨a1, rest⟩
      · rfl
      rcases rest with _ | ⟨a2, rest⟩
      · rfl
      rcases rest with _ | ⟨a3, rest⟩
      · rfl
      rcases rest with _ | ⟨a4, rest⟩
      · rfl
      rcases rest with _ | ⟨a5, rest⟩
      · rfl
      rcases rest with _ | ⟨a6, rest⟩
      · rfl
      rcases rest with _ | ⟨a7, rest⟩
      · rfl
      rcases rest with _ | ⟨a8, rest⟩
      · rfl
      rcases rest with _ | ⟨a9, rest⟩
      · rfl
      rcases rest with _ | ⟨a10, rest⟩
      · rfl
      rcases rest with _ | ⟨a11, rest⟩
      · rfl
      rcases rest with _ | ⟨a12, rest⟩
      · rfl
      rcases rest with _ | ⟨a13, rest⟩
      · rfl
      rcases rest with _ | ⟨a14, rest⟩
      · rfl
      rcases rest with _ | ⟨a15, rest⟩
      · rfl
      rcases rest with _ | ⟨a16, rest⟩
      · rfl
      rcases rest with _ | ⟨a17, rest⟩
      · rfl
      rcases rest with _ | ⟨a18, rest⟩
      · rfl
      rcases rest with _ | ⟨a19, rest⟩
      · rfl
      rcases rest with _ | ⟨a20, rest⟩
      · rfl
      rcases rest with _ | ⟨a21, rest⟩
      · rfl
      rcases rest with _ | ⟨a22, rest⟩
      · rfl
      rcases rest with _ | ⟨a23, rest⟩
      · rfl
      rcases rest with _ | ⟨a24, rest⟩
      · rfl
      rcases rest with _ | ⟨a25, rest⟩
      · rfl
      rcases rest with _ | ⟨a26, rest⟩
      · rfl
      rcases rest with _ | ⟨a27, rest⟩
      · rfl
      rcases rest with _ | ⟨a28, rest⟩
      · rfl
      rcases rest with _ | ⟨a29, rest⟩
      · rfl
      rcases rest with _ | ⟨a30, rest⟩
      · rfl
      rcases rest with _ | ⟨a31, rest⟩
      · rfl
      exact absurd rfl (h a0 a1 a2 a3 a4 a5 a6 a7 a8 a9 a10 a11 a12 a13 a14 a15 a16 a17 a18 a19 a20 a21 a22 a23 a24 a25 a26 a27 a28 a29 a30 a31 rest)

/-- A buffer of at least 32 bytes splits into a leading 32-byte chunk and a
remainder. -/
theorem exists_chunk32 (b : List Nat) (h : 32 ≤ b.length) :
    ∃ a0 a1 a2 a3 a4 a5 a6 a7 a8 a9 a10 a11 a12 a13 a14 a15 a16 a17 a18 a19 a20 a21 a22 a23 a24 a25 a26 a27 a28 a29 a30 a31 rest, b = a0 :: a1 :: a2 :: a3 :: a4 :: a5 :: a6 :: a7 :: a8 :: a9 :: a10 :: a11 :: a12 :: a13 :: a14 :: a15 :: a16 :: a17 :: a18 :: a19 :: a20 :: a21 :: a22 :: a23 :: a24 :: a25 :: a26 :: a27 :: a28 :: a29 :: a30 :: a31 :: rest := by
  rcases b with _ | ⟨a0, b⟩
  · simp at h
  rcases b with _ | ⟨a1, b⟩
  · simp at h
  rcases b with _ | ⟨a2, b⟩
  · simp at h
  rcases b with _ | ⟨a3, b⟩
  · simp at h
  rcases b with _ | ⟨a4, b⟩
  · simp at h
  rcases b with _ | ⟨a5, b⟩
  · simp at h
  rcases b with _ | ⟨a6, b⟩
  · simp at h
  rcases b with _ | ⟨a7, b⟩
  · simp at h
  rcases b with _ | ⟨a8, b⟩
  · simp at h
  rcases b with _ | ⟨a9, b⟩
  · simp at h
  rcases b with _ | ⟨a10, b⟩
  · simp at h
  rcases b with _ | ⟨a11, b⟩
  · simp at h
  rcases b with _ | ⟨a12, b⟩
  · simp at h
  rcases b with _ | ⟨a13, b⟩
  · simp at h
  rcases b with _ | ⟨a14, b⟩
  · simp at h
  rcases b with _ | ⟨a15, b⟩
  · simp at h
  rcases b with _ | ⟨a16, b⟩
  · simp at h
  rcases b with _ | ⟨a17, b⟩
  · simp at h
  rcases b with _ | ⟨a18, b⟩
  · simp at h
  rcases b with _ | ⟨a19, b⟩
  · simp at h
  rcases b with _ | ⟨a20, b⟩
  · simp at h
  rcases b with _ | ⟨a21, b⟩
  · simp at h
  rcases b with _ | ⟨a22, b⟩
  · simp at h
  rcases b with _ | ⟨a23, b⟩
  · simp at h
  rcases b with _ | ⟨a24, b⟩
  · simp at h
  rcases b with _ | ⟨a25, b⟩
  · simp at h
  rcases b with _ | ⟨a26, b⟩
  · simp at h
  rcases b with _ | ⟨a27, b⟩
  · simp at h
  rcases b with _ | ⟨a28, b⟩
  · simp at h
  rcases b with _ | ⟨a29, b⟩
  · simp at h
  rcases b with _ | ⟨a30, b⟩
  · simp at h
  rcases b with _ | ⟨a31, b⟩
  · simp at h
  exact ⟨a0, a1, a2, a3, a4, a5, a6, a7, a8, a9, a10, a11, a12, a13, a14, a15, a16, a17, a18, a19, a20, a21, a22, a23, a24, a25, a26, a27, a28, a29, a30, a31, b, rfl⟩

/-- The chunk loop on ANY buffer: the leading complete 32-byte chunks are
exactly scalar-shuffled, and the final remainder (shorter than 32 bytes) is
returned unchanged. -/
theorem avxChunkLoop_decomp : ∀ b : List Nat,
    ImageProcessor.avxChunkLoop b
      = scalarTransform (b.take (32 * (b.length / 32)))
        ++ b.drop (32 * (b.length / 32)) := by
  intro b
  induction b using ImageProcessor.avxChunkLoop.induct with
  | case1 a0 a1 a2 a3 a4 a5 a6 a7 a8 a9 a10 a11 a12 a13 a14 a15 a16 a17 a18 a19 a20 a21 a22 a23 a24 a25 a26 a27 a28 a29 a30 a31 rest ih =>
      have hsplit : (a0 :: a1 :: a2 :: a3 :: a4 :: a5 :: a6 :: a7 :: a8 :: a9 :: a10 :: a11 :: a12 :: a13 :: a14 :: a15 :: a16 :: a17 :: a18 :: a19 :: a20 :: a21 :: a22 :: a23 :: a24 :: a25 :: a26 :: a27 :: a28 :: a29 :: a30 :: a31 :: rest : List Nat) = ([a0, a1, a2, a3, a4, a5, a6, a7, a8, a9, a10, a11, a12, a13, a14, a15, a16, a17, a18, a19, a20, a21, a22, a23, a24, a25, a26, a27, a28, a29, a30, a31] : List Nat) ++ rest := rfl
      rw [hsplit]
      have hclen : ([a0, a1, a2, a3, a4, a5, a6, a7, a8, a9, a10, a11, a12, a13, a14, a15, a16, a17, a18, a19, a20, a21, a22, a23, a24, a25, a26, a27, a28, a29, a30, a31] : List Nat).length = 32 := rfl
      have hq : (([a0, a1, a2, a3, a4, a5, a6, a7, a8, a9, a10, a11, a12, a13, a14, a15, a16, a17, a18, a19, a20, a21, a22, a23, a24, a25, a26, a27, a28, a29, a30, a31] : List Nat) ++ rest).length / 32 = rest.length / 32 + 1 := by
        rw [List.length_append, hclen]
        omega
      rw [hq, List.take_append_eq_append_take, List.drop_append_eq_append_drop, hclen]
      rw [List.take_of_length_le (by rw [hclen]; omega),
        List.drop_eq_nil_iff.mpr (by rw [hclen]; omega)]
      have hsub : 32 * (rest.length / 32 + 1) - 32 = 32 * (rest.length / 32) := by omega
      rw [hsub, List.nil_append]
      simp only [List.cons_append, List.nil_append, ImageProcessor.avxChunkLoop,
        scalarTransform, List.append_eq]
      rw [ih]
  | case2 rest h =>
      have hlt : rest.length < 32 := by
        by_contra hge
        push_neg at hge
        obtain ⟨a0, a1, a2, a3, a4, a5, a6, a7, a8, a9, a10, a11, a12, a13, a14, a15, a16, a17, a18, a19, a20, a21, a22, a23, a24, a25, a26, a27, a28, a29, a30, a31, r, hr⟩ := exists_chunk32 rest hge
        exact h a0 a1 a2 a3 a4 a5 a6 a7 a8 a9 a10 a11 a12 a13 a14 a15 a16 a17 a18 a19 a20 a21 a22 a23 a24 a25 a26 a27 a28 a29 a30 a31 r hr
      rw [avxChunkLoop_short rest hlt, Nat.div_eq_of_lt hlt]
      simp only [Nat.mul_zero, List.take_zero, List.drop_zero]
      rfl

/-- C1 counterexample: the code's vectorized transform (with AVX present) and
the spec's scalar equivalent disagree on a buffer whose length (4) is not a
multiple of the 32-byte chunk: the vectorized path leaves the short tail
untouched while the scalar channel shuffle transforms it. -/
theorem vectorized_scalar_tail_disagree :
    ImageProcessor.vectorizedColorConversion true [0, 1, 2, 3]
      ≠ scalarTransform [0, 1, 2, 3] := by decide

/-- C1 (amended): with AVX present, the vectorized transform of ANY buffer
equals the scalar channel shuffle of the leading complete 32-byte chunks
followed by the final remainder — shorter than 32 bytes — returned unchanged
(the code has no scalar tail fallback); in particular the vectorized and the
scalar transforms are byte-identical exactly on buffers whose length is a
multiple of the 32-byte chunk size. -/
theorem vectorized_eq_scalar_on_chunks (b : List Nat) :
    ImageProcessor.vectorizedColorConversion true b
      = scalarTransform (b.take (32 * (b.length / 32)))
        ++ b.drop (32 * (b.length / 32)) ∧
    (32 ∣ b.length →
      ImageProcessor.vectorizedColorConversion true b = scalarTransform b) :=
  ⟨avxChunkLoop_decomp b, fun h => avxChunkLoop_eq_scalar b h⟩

/-- C1 witness: the chunk-and-remainder decomposition at a concrete 36-byte
buffer (one full chunk plus a 4-byte remainder), and the full equivalence at
a concrete 32-byte buffer. -/
theorem vectorized_eq_scalar_witness :
    ImageProcessor.vectorizedColorConversion true [0, 1, 2, 3, 4, 5, 6, 7, 8, 9, 10, 11, 12, 13, 14, 15, 16, 17, 18, 19, 20, 21, 22, 23, 24, 25, 26, 27, 28, 29, 30, 31, 32, 33, 34, 35]
      = scalarTransform ([0, 1, 2, 3, 4, 5, 6, 7, 8, 9, 10, 11, 12, 13, 14, 15, 16, 17, 18, 19, 20, 21, 22, 23, 24, 25, 26, 27, 28, 29, 30, 31, 32, 33, 34, 35].take (32 * ([0, 1, 2, 3, 4, 5, 6, 7, 8, 9, 10, 11, 12, 13, 14, 15, 16, 17, 18, 19, 20, 21, 22, 23, 24, 25, 26, 27, 28, 29, 30, 31, 32, 33, 34, 35].length / 32)))
        ++ [0, 1, 2, 3, 4, 5, 6, 7, 8, 9, 10, 11, 12, 13, 14, 15, 16, 17, 18, 19, 20, 21, 22, 23, 24, 25, 26, 27, 28, 29, 30, 31, 32, 33, 34, 35].drop (32 * ([0, 1, 2, 3, 4, 5, 6, 7, 8, 9, 10, 11, 12, 13, 14, 15, 16, 17, 18, 19, 20, 21, 22, 23, 24, 25, 26, 27, 28, 29, 30, 31, 32, 33, 34, 35].length / 32)) ∧
    ImageProcessor.vectorizedColorConversion true [0, 1, 2, 3, 4, 5, 6, 7, 8, 9, 10, 11, 12, 13, 14, 15, 16, 17, 18, 19,
         20, 21, 22, 23, 24, 25, 26, 27, 28, 29, 30, 31] = scalarTransform [0, 1, 2, 3, 4, 5, 6, 7, 8, 9, 10, 11, 12, 13, 14, 15, 16, 17, 18, 19,
         20, 21, 22, 23, 24, 25, 26, 27, 28, 29, 30, 31] :=
  ⟨(vectorized_eq_scalar_on_chunks [0, 1, 2, 3, 4, 5, 6, 7, 8, 9, 10, 11, 12, 13, 14, 15, 16, 17, 18, 19, 20, 21, 22, 23, 24, 25, 26, 27, 28, 29, 30, 31, 32, 33, 34, 35]).1,
   (vectorized_eq_scalar_on_chunks [0, 1, 2, 3, 4, 5, 6, 7, 8, 9, 10, 11, 12, 13, 14, 15, 16, 17, 18, 19,
         20, 21, 22, 23, 24, 25, 26, 27, 28, 29, 30, 31]).2 (by decide)⟩

/-- Lookup after an in-place increment at the same key: one more. -/
theorem mapGetD_mapIncr_self (l : List (String × Nat)) (k : String) :
    mapGetD (mapIncr l k) k 0 = mapGetD l k 0 + 1 := by
  induction l with
  | nil => simp [mapGetD, mapIncr]
  | cons p rest ih =>
      cases p with
      | mk k' v =>
          by_cases h : k = k'
          · simp [mapGetD, mapIncr, h]
          · simp [mapGetD, mapIncr, h, ih]

/-- Incrementing one key leaves every other key's count unchanged. -/
theorem mapGetD_mapIncr_ne (l : List (String × Nat)) (k k' : String) (h : k' ≠ k) :
    mapGetD (mapIncr l k) k' 0 = mapGetD l k' 0 := by
  induction l with
  | nil => simp [mapGetD, mapIncr, h]
  | cons p rest ih =>
      cases p with
      | mk k'' v =>
          by_cases hk : k = k''
          · subst hk
            simp [mapGetD, mapIncr, h]
          · simp only [mapIncr, if_neg hk, mapGetD]
            by_cases hk' : k' = k''
            · simp [hk']
            · simp [hk', ih]

/-- Lookup after a set at the same key returns the new value. -/
theorem mapGetD_mapSetD_self {α : Type} (l : List (String × α)) (k : String) (v d : α) :
    mapGetD (mapSetD l k v) k d = v := by
  induction l with
  | nil => simp [mapGetD, mapSetD]
  | cons p rest ih =>
      cases p with
      | mk k' v' =>
          by_cases h : k = k'
          · simp [mapGetD, mapSetD, h]
          · simp [mapGetD, mapSetD, h, ih]

/-- Setting one key leaves every other key's value unchanged. -/
theorem mapGetD_mapSetD_ne {α : Type} (l : List (String × α)) (k k' : String) (v d : α)
    (h : k' ≠ k) : mapGetD (mapSetD l k v) k' d = mapGetD l k' d := by
  induction l with
  | nil => simp [mapGetD, mapSetD, h]
  | cons p rest ih =>
      cases p with
      | mk k'' v' =>
          by_cases hk : k = k''
          · subst hk
            simp [mapGetD, mapSetD, h]
          · simp only [mapSetD, if_neg hk, mapGetD]
            by_cases hk' : k' = k''
            · simp [hk']
            · simp [hk', ih]

/-- After a set the key is present. -/
theorem mapHasKey_mapSetD_self {α : Type} (l : List (String × α)) (k : String) (v : α) :
    mapHasKey (mapSetD l k v) k = true := by
  induction l with
  | nil => simp [mapHasKey, mapSetD]
  | cons p rest ih =>
      cases p with
      | mk k' v' =>
          by_cases h : k = k'
          · simp [mapHasKey, mapSetD, h]
          · simp [mapHasKey, mapSetD, h, ih]

/-- A set never removes a key that was present. -/
theorem mapHasKey_mapSetD_of {α : Type} (l : List (String × α)) (k k' : String) (v : α)
    (h : mapHasKey l k = true) : mapHasKey (mapSetD l k' v) k = true := by
  induction l with
  | nil => simp [mapHasKey] at h
  | cons p rest ih =>
      cases p with
      | mk k'' v' =>
          by_cases hk : k' = k''
          · subst hk
            by_cases hkk : k = k'
            · simp [mapHasKey, mapSetD, hkk]
            · simp only [mapHasKey] at h
              simp [mapHasKey, mapSetD, hkk] at h ⊢
              exact h
          · simp only [mapHasKey] at h
            by_cases hkk : k = k''
            · simp [mapHasKey, mapSetD, hk, hkk]
            · simp only [if_neg hkk] at h
              simp [mapHasKey, mapSetD, hk, hkk, ih h]

/-- Every entry of an incremented map carries either the incremented key or a
key already present. -/
theorem mem_mapIncr (l : List (String × Nat)) (k : String) (p : String × Nat)
    (hp : p ∈ mapIncr l k) : p.1 = k ∨ ∃ v, (p.1, v) ∈ l := by
  induction l with
  | nil =>
      simp only [mapIncr, List.mem_singleton] at hp
      subst hp
      exact Or.inl rfl
  | cons q rest ih =>
      cases q with
      | mk k' v' =>
          by_cases h : k = k'
          · simp only [mapIncr, if_pos h] at hp
            rcases List.mem_cons.mp hp with h1 | h1
            · subst h1
              exact Or.inl h.symm
            · exact Or.inr ⟨p.2, List.mem_cons_of_mem _ (by simpa using h1)⟩
          · simp only [mapIncr, if_neg h] at hp
            rcases List.mem_cons.mp hp with h1 | h1
            · subst h1
              exact Or.inr ⟨v', List.mem_cons_self _ _⟩
            · rcases ih h1 with h2 | ⟨v, h2⟩
              · exact Or.inl h2
              · exact Or.inr ⟨v, List.mem_cons_of_mem _ h2⟩

/-- C6: the capability-usage flag after any run sequence equals "it was
already set, OR AVX is supported and some recorded completion used the
`simd_optimize` operation" — so the flag is monotone (once true it stays true
through any later scalar-path completions), it is never set merely because
AVX is available, and it is set exactly when the vector path executed; and
the snapshot reports exactly this flag. -/
theorem avx_used_flag_characterization (avx : Bool) (m : ImageProcessor.Metrics)
    (l : List (String × ℚ)) :
    (ImageProcessor.recordAll avx m l).avx_used
      = (m.avx_used || (avx && l.any (fun p => p.1 == "simd_optimize"))) ∧
    (ImageProcessor.GetMetrics avx (ImageProcessor.recordAll avx m l)).1.avxUsed
      = (ImageProcessor.recordAll avx m l).avx_used := by
  refine ⟨?_, rfl⟩
  induction l generalizing m with
  | nil => simp [ImageProcessor.recordAll]
  | cons p rest ih =>
      cases p with
      | mk op t =>
          simp only [ImageProcessor.recordAll, ih, ImageProcessor.updateMetrics,
            List.any_cons]
          cases hm : m.avx_used <;> cases avx <;>
            simp [Bool.or_assoc, Bool.and_comm]

/-- Fresh metrics satisfy the key-coverage invariant vacuously. -/
theorem keysCovered_init : ImageProcessor.KeysCovered ImageProcessor.metricsInit := by
  intro p hp
  simp [ImageProcessor.metricsInit] at hp

/-- One metrics update preserves key coverage: the incremented operation gets
an average entry in the same update. -/
theorem keysCovered_update (avx : Bool) (m : ImageProcessor.Metrics) (op : String)
    (t : ℚ) (h : ImageProcessor.KeysCovered m) :
    ImageProcessor.KeysCovered (ImageProcessor.updateMetrics avx m op t) := by
  intro p hp
  simp only [ImageProcessor.updateMetrics] at hp ⊢
  rcases mem_mapIncr m.operation_count op p hp with hk | ⟨v, hv⟩
  · rw [hk]
    exact mapHasKey_mapSetD_self _ _ _
  · exact mapHasKey_mapSetD_of _ _ _ _ (h (p.1, v) hv)

/-- Any run sequence from covered metrics stays covered. -/
theorem keysCovered_recordAll (avx : Bool) (m : ImageProcessor.Metrics)
    (l : List (String × ℚ)) (h : ImageProcessor.KeysCovered m) :
    ImageProcessor.KeysCovered (ImageProcessor.recordAll avx m l) := by
  induction l generalizing m with
  | nil => exact h
  | cons p rest ih =>
      cases p with
      | mk op t =>
          simp only [ImageProcessor.recordAll]
          exact ih _ (keysCovered_update avx m op t h)

/-- When every counted operation has an average entry, the `GetMetrics` read
loop returns the expected rows and does not touch the average map. -/
theorem readOps_of_covered (cnt : List (String × Nat)) (avg : List (String × ℚ))
    (h : ∀ p ∈ cnt, mapHasKey avg p.1 = true) :
    ImageProcessor.readOps cnt avg
      = (cnt.map (fun p => (p.1, p.2, mapGetD avg p.1 0)), avg) := by
  induction cnt with
  | nil => rfl
  | cons p rest ih =>
      cases p with
      | mk k c =>
          have hk : mapHasKey avg k = true := h (k, c) (List.mem_cons_self _ _)
          have hrest : ∀ q ∈ rest, mapHasKey avg q.1 = true :=
            fun q hq => h q (List.mem_cons_of_mem _ hq)
          simp [ImageProcessor.readOps, hk, ih hrest]

/-- `GetMetrics` leaves a covered metrics state unchanged. -/
theorem getMetrics_state_of_covered (avx : Bool) (m : ImageProcessor.Metrics)
    (h : ImageProcessor.KeysCovered m) : (ImageProcessor.GetMetrics avx m).2 = m := by
  simp only [ImageProcessor.GetMetrics, readOps_of_covered m.operation_count
    m.operation_avg_time h]

/-- `GetMetrics` rows are the counted operations paired with their stored
averages, on a covered state. -/
theorem getMetrics_rows_of_covered (avx : Bool) (m : ImageProcessor.Metrics)
    (h : ImageProcessor.KeysCovered m) :
    (ImageProcessor.GetMetrics avx m).1.operations
      = m.operation_count.map (fun p => (p.1, p.2, mapGetD m.operation_avg_time p.1 0)) := by
  simp only [ImageProcessor.GetMetrics, readOps_of_covered m.operation_count
    m.operation_avg_time h]

/-- If a key is absent from the map, lookup yields the default. -/
theorem mapGetD_of_hasKey_eq_false {α : Type} (l : List (String × α)) (k : String)
    (d : α) (h : mapHasKey l k = false) : mapGetD l k d = d := by
  induction l with
  | nil => rfl
  | cons p rest ih =>
      cases p with
      | mk k' v =>
          simp only [mapHasKey] at h
          by_cases hk : k = k'
          · rw [if_pos hk] at h
            exact absurd h (by simp)
          · rw [if_neg hk] at h
            simp only [mapGetD, if_neg hk]
            exact ih h

/-- Key presence in the association-list model is membership among the keys. -/
theorem mapHasKey_eq_true_iff {α : Type} (l : List (String × α)) (k : String) :
    mapHasKey l k = true ↔ k ∈ l.map Prod.fst := by
  induction l with
  | nil => simp [mapHasKey]
  | cons p rest ih =>
      cases p with
      | mk k' v =>
          by_cases h : k = k'
          · simp [mapHasKey, h]
          · simp [mapHasKey, h, ih]

/-- Incrementing preserves distinctness of the map's keys. -/
theorem nodupKeys_mapIncr (l : List (String × Nat)) (k : String)
    (h : (l.map Prod.fst).Nodup) : ((mapIncr l k).map Prod.fst).Nodup := by
  induction l with
  | nil => simp [mapIncr]
  | cons p rest ih =>
      cases p with
      | mk k' v =>
          simp only [List.map_cons, List.nodup_cons] at h
          by_cases hk : k = k'
          · simp only [mapIncr, if_pos hk, List.map_cons, List.nodup_cons]
            exact h
          · simp only [mapIncr, if_neg hk, List.map_cons, List.nodup_cons]
            refine ⟨?_, ih h.2⟩
            intro hmem
            rcases List.mem_map.mp hmem with ⟨p, hp, hpk⟩
            rcases mem_mapIncr rest k p hp with h1 | ⟨v2, h2⟩
            · apply hk
              rw [← h1, hpk]
            · exact h.1 (List.mem_map.mpr ⟨(p.1, v2), h2, hpk⟩)

/-- The gRPC run preserves distinctness of the count map's keys. -/
theorem nodupKeys_recordAllService (l : List (String × ℚ))
    (m : ImageServiceImpl.ServiceMetrics)
    (h : (m.operation_counts.map Prod.fst).Nodup) :
    ((ImageServiceImpl.recordAllService m l).operation_counts.map Prod.fst).Nodup := by
  induction l generalizing m with
  | nil => exact h
  | cons p rest ih =>
      cases p with
      | mk op t =>
          simp only [ImageServiceImpl.recordAllService]
          exact ih _ (nodupKeys_mapIncr _ _ h)

/-- Folding `response[name] = count` over a distinct-key source map
reproduces the source's lookups (keys absent from the source fall through to
the accumulator). -/
theorem foldl_setD_getD (op : String) : ∀ (src acc : List (String × Nat)),
    (src.map Prod.fst).Nodup →
    mapGetD (src.foldl (fun acc' p => mapSetD acc' p.1 p.2) acc) op 0
      = if mapHasKey src op = true then mapGetD src op 0 else mapGetD acc op 0 := by
  intro src
  induction src with
  | nil =>
      intro acc hnd
      simp [mapHasKey, mapGetD]
  | cons p rest ih =>
      intro acc hnd
      cases p with
      | mk k v =>
          simp only [List.map_cons, List.nodup_cons] at hnd
          simp only [List.foldl_cons]
          rw [ih (mapSetD acc k v) hnd.2]
          by_cases h : op = k
          · subst h
            have hk : ¬ (mapHasKey rest op = true) :=
              fun hh => hnd.1 ((mapHasKey_eq_true_iff rest op).mp hh)
            rw [if_neg hk, mapGetD_mapSetD_self]
            simp [mapHasKey, mapGetD]
          · rw [mapGetD_mapSetD_ne acc k op v 0 h]
            simp [mapHasKey, mapGetD, h]

/-- The gRPC `GetMetrics` response map reports exactly the state's
per-operation counts, on any state with distinct count keys. -/
theorem grpc_getMetrics_counts (m : ImageServiceImpl.ServiceMetrics) (op : String)
    (hnd : (m.operation_counts.map Prod.fst).Nodup) :
    mapGetD (ImageServiceImpl.GetMetrics m).1.operation_counts op 0
      = mapGetD m.operation_counts op 0 := by
  show mapGetD (ImageServiceImpl.buildResponseCounts m.operation_counts) op 0 = _
  rw [ImageServiceImpl.buildResponseCounts, foldl_setD_getD op m.operation_counts [] hnd]
  by_cases h : mapHasKey m.operation_counts op = true
  · rw [if_pos h]
  · rw [if_neg h]
    have hb : mapHasKey m.operation_counts op = false := by
      revert h
      cases mapHasKey m.operation_counts op <;> simp
    rw [mapGetD_of_hasKey_eq_false m.operation_counts op 0 hb]
    rfl

/-- C7: neither `GetMetrics` mutates its aggregator.  On every reachable
N-API metrics state the non-const `operator[]` reads never insert (every
counted operation already has an average entry), so the state is returned
unchanged and the snapshot is a faithful copy of the state's fields; the
gRPC `GetMetrics` only reads its state, and the response map it assembles
reports exactly the state's per-operation counts.  Both snapshots are
separate values: later aggregator updates produce new states and cannot
alter an already returned snapshot. -/
theorem getMetrics_preserves_state (avx : Bool) (l : List (String × ℚ)) :
    (ImageProcessor.GetMetrics avx
        (ImageProcessor.recordAll avx ImageProcessor.metricsInit l)).2
      = ImageProcessor.recordAll avx ImageProcessor.metricsInit l ∧
    (ImageProcessor.GetMetrics avx
        (ImageProcessor.recordAll avx ImageProcessor.metricsInit l)).1.operations
      = (ImageProcessor.recordAll avx ImageProcessor.metricsInit l).operation_count.map
          (fun p => (p.1, p.2, mapGetD (ImageProcessor.recordAll avx
            ImageProcessor.metricsInit l).operation_avg_time p.1 0)) ∧
    (ImageServiceImpl.GetMetrics
        (ImageServiceImpl.recordAllService ImageServiceImpl.serviceMetricsInit l)).2
      = ImageServiceImpl.recordAllService ImageServiceImpl.serviceMetricsInit l ∧
    ∀ op : String,
      mapGetD (ImageServiceImpl.GetMetrics
          (ImageServiceImpl.recordAllService
            ImageServiceImpl.serviceMetricsInit l)).1.operation_counts op 0
        = mapGetD (ImageServiceImpl.recordAllService
            ImageServiceImpl.serviceMetricsInit l).operation_counts op 0 :=
  ⟨getMetrics_state_of_covered avx _ (keysCovered_recordAll avx _ l keysCovered_init),
   getMetrics_rows_of_covered avx _ (keysCovered_recordAll avx _ l keysCovered_init),
   rfl,
   fun op => grpc_getMetrics_counts _ op
     (nodupKeys_recordAllService l _ (by simp [ImageServiceImpl.serviceMetricsInit]))⟩

/-- One update advances the total count by one. -/
theorem updateMetrics_total (avx : Bool) (m : ImageProcessor.Metrics) (op : String) (t : ℚ) :
    (ImageProcessor.updateMetrics avx m op t).total_processed = m.total_processed + 1 := rfl

/-- Recording a sequence adds its length to the total count. -/
theorem recordAll_total (avx : Bool) (l : List (String × ℚ)) (m : ImageProcessor.Metrics) :
    (ImageProcessor.recordAll avx m l).total_processed = m.total_processed + l.length := by
  induction l generalizing m with
  | nil => simp [ImageProcessor.recordAll]
  | cons p rest ih =>
      cases p with
      | mk op t =>
          simp only [ImageProcessor.recordAll, ih, updateMetrics_total, List.length_cons]
          omega

/-- The weighted-average update, un-divided: one step adds the elapsed time
to the (average × count) product. -/
theorem updateMetrics_avg_mul (avx : Bool) (m : ImageProcessor.Metrics) (op : String)
    (t : ℚ) :
    (ImageProcessor.updateMetrics avx m op t).average_time
        * (((ImageProcessor.updateMetrics avx m op t).total_processed : ℚ))
      = m.average_time * (m.total_processed : ℚ) + t := by
  simp only [ImageProcessor.updateMetrics]
  push_cast
  have hn : (m.total_processed : ℚ) + 1 ≠ 0 := by positivity
  field_simp

/-- Over a whole run, (global average × total count) accumulates the sum of
the recorded times. -/
theorem recordAll_avg_mul (avx : Bool) (l : List (String × ℚ)) (m : ImageProcessor.Metrics) :
    (ImageProcessor.recordAll avx m l).average_time
        * (((ImageProcessor.recordAll avx m l).total_processed : ℚ))
      = m.average_time * (m.total_processed : ℚ) + (l.map Prod.snd).sum := by
  induction l generalizing m with
  | nil => simp [ImageProcessor.recordAll]
  | cons p rest ih =>
      cases p with
      | mk op t =>
          simp only [ImageProcessor.recordAll, List.map_cons, List.sum_cons]
          rw [ih, updateMetrics_avg_mul]
          ring

/-- One update increments the recorded operation's count. -/
theorem updateMetrics_opCount_self (avx : Bool) (m : ImageProcessor.Metrics)
    (op : String) (t : ℚ) :
    mapGetD (ImageProcessor.updateMetrics avx m op t).operation_count op 0
      = mapGetD m.operation_count op 0 + 1 := by
  simp only [ImageProcessor.updateMetrics]
  exact mapGetD_mapIncr_self _ _

/-- One update leaves every other operation's count unchanged. -/
theorem updateMetrics_opCount_ne (avx : Bool) (m : ImageProcessor.Metrics)
    (op op' : String) (t : ℚ) (h : op' ≠ op) :
    mapGetD (ImageProcessor.updateMetrics avx m op t).operation_count op' 0
      = mapGetD m.operation_count op' 0 := by
  simp only [ImageProcessor.updateMetrics]
  exact mapGetD_mapIncr_ne _ _ _ h

/-- One update adds the elapsed time to the recorded operation's
(average × count) product. -/
theorem updateMetrics_opAvg_mul_self (avx : Bool) (m : ImageProcessor.Metrics)
    (op : String) (t : ℚ) :
    mapGetD (ImageProcessor.updateMetrics avx m op t).operation_avg_time op 0
        * (((mapGetD (ImageProcessor.updateMetrics avx m op t).operation_count op 0 : ℕ)) : ℚ)
      = mapGetD m.operation_avg_time op 0 * (((mapGetD m.operation_count op 0 : ℕ)) : ℚ)
        + t := by
  simp only [ImageProcessor.updateMetrics, mapGetD_mapSetD_self, mapGetD_mapIncr_self]
  push_cast
  have hn : ((mapGetD m.operation_count op 0 : ℕ) : ℚ) + 1 ≠ 0 := by positivity
  field_simp

/-- One update leaves every other operation's stored average unchanged. -/
theorem updateMetrics_opAvg_ne (avx : Bool) (m : ImageProcessor.Metrics)
    (op op' : String) (t : ℚ) (h : op' ≠ op) :
    mapGetD (ImageProcessor.updateMetrics avx m op t).operation_avg_time op' 0
      = mapGetD m.operation_avg_time op' 0 := by
  simp only [ImageProcessor.updateMetrics]
  exact mapGetD_mapSetD_ne _ _ _ _ _ h

/-- Recording a sequence adds, to each operation's count, the number of its
completions in the sequence. -/
theorem recordAll_opCount (avx : Bool) (l : List (String × ℚ))
    (m : ImageProcessor.Metrics) (op : String) :
    mapGetD (ImageProcessor.recordAll avx m l).operation_count op 0
      = mapGetD m.operation_count op 0 + (l.filter (fun p => p.1 = op)).length := by
  induction l generalizing m with
  | nil => simp [ImageProcessor.recordAll]
  | cons p rest ih =>
      cases p with
      | mk op' t =>
          simp only [ImageProcessor.recordAll, List.filter_cons]
          rw [ih]
          by_cases h : op' = op
          · subst h
            simp [updateMetrics_opCount_self]
            omega
          · rw [updateMetrics_opCount_ne avx m op' op t (fun hh => h hh.symm)]
            simp [h]

/-- Over a whole run, each operation's (average × count) product accumulates
the sum of that operation's recorded times. -/
theorem recordAll_opAvg_mul (avx : Bool) (l : List (String × ℚ))
    (m : ImageProcessor.Metrics) (op : String) :
    mapGetD (ImageProcessor.recordAll avx m l).operation_avg_time op 0
        * (((mapGetD (ImageProcessor.recordAll avx m l).operation_count op 0 : ℕ)) : ℚ)
      = mapGetD m.operation_avg_time op 0 * (((mapGetD m.operation_count op 0 : ℕ)) : ℚ)
        + ((l.filter (fun p => p.1 = op)).map Prod.snd).sum := by
  induction l generalizing m with
  | nil => simp [ImageProcessor.recordAll]
  | cons p rest ih =>
      cases p with
      | mk op' t =>
          simp only [ImageProcessor.recordAll, List.filter_cons]
          rw [ih]
          by_cases h : op' = op
          · subst h
            rw [updateMetrics_opAvg_mul_self]
            simp
            ring
          · rw [updateMetrics_opAvg_ne avx m op' op t (fun hh => h hh.symm),
              updateMetrics_opCount_ne avx m op' op t (fun hh => h hh.symm)]
            simp [h]

/-- One gRPC update advances the total count by one. -/
theorem updateServiceMetrics_total (m : ImageServiceImpl.ServiceMetrics)
    (op : String) (t : ℚ) :
    (ImageServiceImpl.updateServiceMetrics m op t).total_processed
      = m.total_processed + 1 := rfl

/-- Recording a sequence adds its length to the gRPC total count. -/
theorem recordAllService_total (l : List (String × ℚ)) (m : ImageServiceImpl.ServiceMetrics) :
    (ImageServiceImpl.recordAllService m l).total_processed
      = m.total_processed + l.length := by
  induction l generalizing m with
  | nil => simp [ImageServiceImpl.recordAllService]
  | cons p rest ih =>
      cases p with
      | mk op t =>
          simp only [ImageServiceImpl.recordAllService, ih, updateServiceMetrics_total,
            List.length_cons]
          omega

/-- The gRPC weighted-average update, un-divided. -/
theorem updateServiceMetrics_avg_mul (m : ImageServiceImpl.ServiceMetrics)
    (op : String) (t : ℚ) :
    (ImageServiceImpl.updateServiceMetrics m op t).average_processing_time
        * (((ImageServiceImpl.updateServiceMetrics m op t).total_processed : ℚ))
      = m.average_processing_time * (m.total_processed : ℚ) + t := by
  simp only [ImageServiceImpl.updateServiceMetrics]
  push_cast
  have hn : (m.total_processed : ℚ) + 1 ≠ 0 := by positivity
  field_simp

/-- Over a whole gRPC run, (average × total) accumulates the recorded sum. -/
theorem recordAllService_avg_mul (l : List (String × ℚ))
    (m : ImageServiceImpl.ServiceMetrics) :
    (ImageServiceImpl.recordAllService m l).average_processing_time
        * (((ImageServiceImpl.recordAllService m l).total_processed : ℚ))
      = m.average_processing_time * (m.total_processed : ℚ) + (l.map Prod.snd).sum := by
  induction l generalizing m with
  | nil => simp [ImageServiceImpl.recordAllService]
  | cons p rest ih =>
      cases p with
      | mk op t =>
          simp only [ImageServiceImpl.recordAllService, List.map_cons, List.sum_cons]
          rw [ih, updateServiceMetrics_avg_mul]
          ring

/-- C4: after recording N > 0 completions with elapsed times t_1..t_N, the
N-API aggregator's total is N, its global running average is exactly
mean(t_1..t_N), each named operation's count is the number of its
completions, and that operation's running average is exactly the mean of its
own recorded times; the gRPC aggregator's global average obeys the same law.
The incremental weighted update is applied once per completion; "double"
arithmetic is modelled by exact rationals, within which the floating-point
tolerance of the claim is 0. -/
theorem metrics_running_averages_are_means (avx : Bool) (l : List (String × ℚ))
    (op : String) (hne : l ≠ [])
    (hop : (l.filter (fun p => p.1 = op)).length ≠ 0) :
    (ImageProcessor.recordAll avx ImageProcessor.metricsInit l).total_processed
      = l.length ∧
    (ImageProcessor.recordAll avx ImageProcessor.metricsInit l).average_time
      = (l.map Prod.snd).sum / (l.length : ℚ) ∧
    mapGetD (ImageProcessor.recordAll avx ImageProcessor.metricsInit l).operation_count op 0
      = (l.filter (fun p => p.1 = op)).length ∧
    mapGetD (ImageProcessor.recordAll avx ImageProcessor.metricsInit l).operation_avg_time op 0
      = ((l.filter (fun p => p.1 = op)).map Prod.snd).sum
          / (((l.filter (fun p => p.1 = op)).length : ℕ) : ℚ) ∧
    (ImageServiceImpl.recordAllService ImageServiceImpl.serviceMetricsInit l).average_processing_time
      = (l.map Prod.snd).sum / (l.length : ℚ) := by
  have hlen0 : l.length ≠ 0 := fun h => hne (List.length_eq_zero.mp h)
  have hlenq : (l.length : ℚ) ≠ 0 := Nat.cast_ne_zero.mpr hlen0
  have hopq : (((l.filter (fun p => p.1 = op)).length : ℕ) : ℚ) ≠ 0 :=
    Nat.cast_ne_zero.mpr hop
  have htotal : (ImageProcessor.recordAll avx ImageProcessor.metricsInit l).total_processed
      = l.length := by
    rw [recordAll_total]
    simp [ImageProcessor.metricsInit]
  have hcount : mapGetD (ImageProcessor.recordAll avx
      ImageProcessor.metricsInit l).operation_count op 0
      = (l.filter (fun p => p.1 = op)).length := by
    rw [recordAll_opCount]
    simp [ImageProcessor.metricsInit, mapGetD]
  have havg : (ImageProcessor.recordAll avx ImageProcessor.metricsInit l).average_time
      = (l.map Prod.snd).sum / (l.length : ℚ) := by
    have h := recordAll_avg_mul avx l ImageProcessor.metricsInit
    rw [htotal] at h
    simp only [ImageProcessor.metricsInit] at h
    rw [eq_div_iff hlenq]
    simpa using h
  have hopavg : mapGetD (ImageProcessor.recordAll avx
      ImageProcessor.metricsInit l).operation_avg_time op 0
      = ((l.filter (fun p => p.1 = op)).map Prod.snd).sum
          / (((l.filter (fun p => p.1 = op)).length : ℕ) : ℚ) := by
    have h := recordAll_opAvg_mul avx l ImageProcessor.metricsInit op
    rw [hcount] at h
    simp only [ImageProcessor.metricsInit, mapGetD] at h
    rw [eq_div_iff hopq]
    simpa using h
  have hstotal : (ImageServiceImpl.recordAllService
      ImageServiceImpl.serviceMetricsInit l).total_processed = l.length := by
    rw [recordAllService_total]
    simp [ImageServiceImpl.serviceMetricsInit]
  have hsavg : (ImageServiceImpl.recordAllService
      ImageServiceImpl.serviceMetricsInit l).average_processing_time
      = (l.map Prod.snd).sum / (l.length : ℚ) := by
    have h := recordAllService_avg_mul l ImageServiceImpl.serviceMetricsInit
    rw [hstotal] at h
    simp only [ImageServiceImpl.serviceMetricsInit] at h
    rw [eq_div_iff hlenq]
    simpa using h
  exact ⟨htotal, havg, hcount, hopavg, hsavg⟩

/-- C4 witness (spec §8 scenario 4): three completions of 10 ms, 20 ms, 30 ms
for "invert" give global average 20 and per-operation average 20. -/
theorem metrics_running_averages_witness :
    (ImageProcessor.recordAll false ImageProcessor.metricsInit
        [("invert", 10), ("invert", 20), ("invert", 30)]).average_time = 20 ∧
    mapGetD (ImageProcessor.recordAll false ImageProcessor.metricsInit
        [("invert", 10), ("invert", 20), ("invert", 30)]).operation_avg_time "invert" 0
      = 20 := by
  have h := metrics_running_averages_are_means false
      [("invert", 10), ("invert", 20), ("invert", 30)] "invert" (by simp) (by decide)
  refine ⟨?_, ?_⟩
  · rw [h.2.1]
    norm_num
  · rw [h.2.2.2.1]
    norm_num [List.filter]
